import Mathlib

/-!
Verification of the casper-node event/effect substrate specification against
the repository sources.

The repository provides three source files:
* `node/src/components.rs` — the `Component` trait (the contract every
  subsystem implements);
* `client/src/keygen.rs` — the `keygen` subcommand;
* `grpc/tests/src/test/regression/ee_599.rs` — the EE-599 regression tests.

The reactor substrate itself (dispatch loop, routing table, effect executor)
is described by the specification but its implementation is not among the
provided sources; those parts are modelled from the specification, and each
such definition says so in its doc comment.
-/

namespace CasperNode

/-- A global reactor event: a tagged variant (identifying the component
family the event belongs to) together with a payload.  Modelled from the
spec: the global Event space is "an exhaustive tagged-variant enumeration";
variants and payloads are represented as natural numbers. -/
structure GEvent where
  variant : Nat
  payload : Nat
deriving DecidableEq

/-- An effect description returned by a handler.  Modelled from the spec:
an Effect is a deferred unit of work that on completion yields zero or more
Events; a fan-out/join Effect is composed of `subCount` sub-effects and
resolves its aggregate events only when all of them complete.  A plain
effect has `subCount = 1`. -/
structure EffectDesc where
  subCount : Nat
  events : List GEvent
deriving DecidableEq

/-- A scheduled (in-flight) effect owned by the effect executor: its handle
`id`, the number of sub-effects still `remaining`, and the events injected
into the queue once the last sub-effect completes. -/
structure PEffect where
  id : Nat
  remaining : Nat
  events : List GEvent
deriving DecidableEq

/-- A Component, `handle_event` following `Component::handle_event` in
`node/src/components.rs`: it consumes the component state, one event payload
and the shared random generator, and returns the new state, the effects to
schedule, and the advanced generator.  The concrete component
implementations are not under the provided sources, so states, payloads and
the generator are modelled as natural numbers; `relevant` is the component's
own classification of which inputs are recognized (the trait documentation:
"Invalid inputs are supposed to be discarded").  The `EffectBuilder`
capability argument carries no data in the model and is omitted. -/
structure Component where
  relevant : Nat → Bool
  handle_event : Nat → Nat → Nat → Nat × List EffectDesc × Nat

/-- The reactor: the routing table (variant to component index) and the
component instances it owns.  Modelled from the spec. -/
structure Reactor where
  table : List (Nat × Nat)
  components : List Component

/-- Reactor state: per-component states, the FIFO event queue, the in-flight
effects, the trace of events already delivered to handlers, the shared
random generator state, and the next fresh effect id.  Modelled from the
spec. -/
structure RState where
  compStates : List Nat
  queue : List GEvent
  pending : List PEffect
  handled : List GEvent
  rng : Nat
  nextId : Nat
deriving DecidableEq

/-- One scheduler action: dispatch the next queued event, complete one
sub-effect of the in-flight effect with the given id, or cancel (drop the
handle of) the in-flight effect with the given id.  The sequence of these
actions encodes the external stimulus order and the effect-completion
order. -/
inductive RAction where
  | dispatch
  | complete (effId : Nat)
  | cancel (effId : Nat)
deriving DecidableEq

/-- Routing lookup: the component index owning a variant, if any. -/
def lookupRoute (table : List (Nat × Nat)) (v : Nat) : Option Nat :=
  (table.find? (fun d => d.1 == v)).map (fun d => d.2)

/-- Drop the in-flight effect with the given id. -/
def dropPending (i : Nat) (l : List PEffect) : List PEffect :=
  l.filter (fun p => p.id != i)

/-- Record completion of one sub-effect of the effect with the given id. -/
def decPending (i : Nat) (l : List PEffect) : List PEffect :=
  l.map (fun p => if p.id == i then { p with remaining := p.remaining - 1 } else p)

/-- Find the in-flight effect with the given id. -/
def findPending (i : Nat) (l : List PEffect) : Option PEffect :=
  l.find? (fun p => p.id == i)

/-- Schedule the effects returned by a handler, assigning fresh ids.
Modelled from the spec: the dispatch loop "schedules every returned Effect
on the executor". -/
def scheduleEffects (effs : List EffectDesc) (s : RState) : RState :=
  { s with
    pending := s.pending ++ effs.enum.map (fun d => ⟨s.nextId + d.1, d.2.subCount, d.2.events⟩),
    nextId := s.nextId + effs.length }

/-- The state after routing event `e` to component `c` and invoking its
entry point.  Modelled from the spec: the component mutates only its own
state, the event is recorded as handled, the returned effects are
scheduled, and the shared generator advances. -/
def dispatchState (s : RState) (e : GEvent) (rest : List GEvent) (c : Nat) (C : Component) : RState :=
  let r := C.handle_event (s.compStates.getD c 0) e.payload s.rng
  scheduleEffects r.2.1
    { s with
      compStates := s.compStates.set c r.1,
      queue := rest,
      handled := s.handled ++ [e],
      rng := r.2.2 }

/-- One step of the reactor.  Modelled from the spec (§4.1, §4.2): dispatch
pops the next ready event FIFO, routes it via the table and invokes the
owning component; completing the last sub-effect of an in-flight effect
injects its events at the back of the queue, completing an earlier
sub-effect of a join emits nothing; cancelling removes the effect silently. -/
def step (R : Reactor) (a : RAction) (s : RState) : RState :=
  match a with
  | RAction.dispatch =>
    match s.queue with
    | [] => s
    | e :: rest =>
      match lookupRoute R.table e.variant with
      | none => { s with queue := rest }
      | some c =>
        match R.components[c]? with
        | none => { s with queue := rest }
        | some C => dispatchState s e rest c C
  | RAction.complete i =>
    match findPending i s.pending with
    | none => s
    | some p =>
      if p.remaining ≤ 1 then
        { s with pending := dropPending i s.pending, queue := s.queue ++ p.events }
      else
        { s with pending := decPending i s.pending }
  | RAction.cancel i => { s with pending := dropPending i s.pending }

/-- Run a sequence of scheduler actions from a state. -/
def runActions (R : Reactor) (as : List RAction) (s : RState) : RState :=
  as.foldl (fun t a => step R a t) s

/-- A deterministic linear-congruential advance of the modelled shared
random generator (64-bit). -/
def rngNext (r : Nat) : Nat :=
  (r * 6364136223846793005 + 1442695040888963407) % 2 ^ 64

/-- Modelled from the spec: a deploy-buffer-like component (§6: accepts a
"new deploy submitted" request and emits a "deploy accepted" announcement).
Its recognized inputs are the even payloads; an unrecognized input is
discarded as a no-op. -/
def deploy_buffer : Component where
  relevant := fun e => e % 2 == 0
  handle_event := fun st e rng =>
    if e % 2 == 0 then (st + e, [⟨1, [⟨1, e⟩]⟩], rngNext rng) else (st, [], rng)

/-- Modelled from the spec: a gossiper-like component consuming the
announcements the deploy buffer emits.  Its recognized inputs are the odd
payloads; it uses the shared generator for jitter.  An unrecognized input
is discarded as a no-op. -/
def gossiper : Component where
  relevant := fun e => e % 2 == 1
  handle_event := fun st e rng =>
    if e % 2 == 1 then (st + 1, [⟨1, [⟨0, (e + rng) % 2 ^ 64⟩]⟩], rngNext rng) else (st, [], rng)

/-- The components of the modelled reactor. -/
def modelComponents : List Component := [deploy_buffer, gossiper]

/-- The modelled reactor: variant 0 owned by the deploy buffer, variant 1
by the gossiper. -/
def modelReactor : Reactor := ⟨[(0, 0), (1, 1)], modelComponents⟩

/-- Small-step relation of the reactor, mirroring `step` case by case.
Modelled from the spec; stated relationally so that replay determinism is a
theorem about derivations rather than a reflexivity fact. -/
inductive Step (R : Reactor) : RAction → RState → RState → Prop where
  | dispatch_empty {s : RState} :
      s.queue = [] → Step R RAction.dispatch s s
  | dispatch_unroutable {s : RState} {e : GEvent} {rest : List GEvent} :
      s.queue = e :: rest → lookupRoute R.table e.variant = none →
      Step R RAction.dispatch s { s with queue := rest }
  | dispatch_missing {s : RState} {e : GEvent} {rest : List GEvent} {c : Nat} :
      s.queue = e :: rest → lookupRoute R.table e.variant = some c →
      R.components[c]? = none →
      Step R RAction.dispatch s { s with queue := rest }
  | dispatch_handle {s : RState} {e : GEvent} {rest : List GEvent} {c : Nat} {C : Component} :
      s.queue = e :: rest → lookupRoute R.table e.variant = some c →
      R.components[c]? = some C →
      Step R RAction.dispatch s (dispatchState s e rest c C)
  | complete_missing {s : RState} {i : Nat} :
      findPending i s.pending = none →
      Step R (RAction.complete i) s s
  | complete_last {s : RState} {i : Nat} {p : PEffect} :
      findPending i s.pending = some p → p.remaining ≤ 1 →
      Step R (RAction.complete i) s
        { s with pending := dropPending i s.pending, queue := s.queue ++ p.events }
  | complete_sub {s : RState} {i : Nat} {p : PEffect} :
      findPending i s.pending = some p → 1 < p.remaining →
      Step R (RAction.complete i) s { s with pending := decPending i s.pending }
  | cancel_drop {s : RState} (i : Nat) :
      Step R (RAction.cancel i) s { s with pending := dropPending i s.pending }

/-- A run of the reactor over a list of scheduler actions, recording every
intermediate state (the sequence of state transitions; the emitted-event
trace is the `handled` field of those states). -/
inductive ExecRun (R : Reactor) : RState → List RAction → List RState → RState → Prop where
  | done {s : RState} : ExecRun R s [] [] s
  | more {a : RAction} {as : List RAction} {s t u : RState} {ts : List RState} :
      Step R a s t → ExecRun R t as ts u → ExecRun R s (a :: as) (t :: ts) u

/-- Inversion: a derivable step lands exactly where the step function does. -/
theorem Step_eq_step (R : Reactor) (a : RAction) (s t : RState)
    (h : Step R a s t) : t = step R a s := by
  cases h with
  | dispatch_empty hq => simp [step, hq]
  | dispatch_unroutable hq hl => simp [step, hq, hl]
  | dispatch_missing hq hl hg => simp [step, hq, hl, hg]
  | dispatch_handle hq hl hg => simp [step, hq, hl, hg]
  | complete_missing hf => simp [step, hf]
  | complete_last hf hr => simp [step, hf, hr]
  | complete_sub hf hr => simp [step, hf, Nat.not_le.mpr hr]
  | cancel_drop i => simp [step]

/-- Each step of the reactor is uniquely determined by the action and the
pre-state. -/
theorem Step_deterministic (R : Reactor) (a : RAction) (s t₁ t₂ : RState)
    (h₁ : Step R a s t₁) (h₂ : Step R a s t₂) : t₁ = t₂ := by
  rw [Step_eq_step R a s t₁ h₁, Step_eq_step R a s t₂ h₂]

/-- The step function realizes the step relation. -/
theorem step_sound (R : Reactor) (a : RAction) (s : RState) : Step R a s (step R a s) := by
  cases a with
  | dispatch =>
    rcases hq : s.queue with _ | ⟨e, rest⟩
    · simpa [step, hq] using Step.dispatch_empty (R := R) hq
    · rcases hl : lookupRoute R.table e.variant with _ | c
      · simpa [step, hq, hl] using Step.dispatch_unroutable (R := R) hq hl
      · rcases hg : R.components[c]? with _ | C
        · simpa [step, hq, hl, hg] using Step.dispatch_missing (R := R) hq hl hg
        · simpa [step, hq, hl, hg] using Step.dispatch_handle (R := R) hq hl hg
  | complete i =>
    rcases hf : findPending i s.pending with _ | p
    · simpa [step, hf] using Step.complete_missing (R := R) hf
    · by_cases hr : p.remaining ≤ 1
      · simpa [step, hf, hr] using Step.complete_last (R := R) hf hr
      · have hr2 : 1 < p.remaining := by omega
        simpa [step, hf, hr] using Step.complete_sub (R := R) hf hr2
  | cancel i =>
    simpa [step] using Step.cancel_drop (R := R) (s := s) i

/-- A demonstration initial state for the modelled reactor: two component
states, one externally sourced event queued for the deploy buffer, and a
fixed random seed. -/
def demoS0 : RState := ⟨[0, 0], [⟨0, 2⟩], [], [], 42, 0⟩

/-- C1: Replay determinism — two runs of the reactor from the same initial
state (the same queued event sequence and the same random seed) over the
same scheduler-action sequence (the same effect-completion order) pass
through identical state transitions, identical per-component state
sequences, identical emitted-event traces, and reach the same final
state. -/
theorem replay_determinism (R : Reactor) (s : RState) (as : List RAction)
    (ts₁ ts₂ : List RState) (u₁ u₂ : RState)
    (h₁ : ExecRun R s as ts₁ u₁) (h₂ : ExecRun R s as ts₂ u₂) :
    ts₁ = ts₂ ∧ u₁ = u₂ ∧
      ts₁.map RState.handled = ts₂.map RState.handled ∧
      ts₁.map RState.compStates = ts₂.map RState.compStates := by
  have main : ∀ vs w, ExecRun R s as vs w → ts₁ = vs ∧ u₁ = w := by
    clear h₂
    induction h₁ with
    | done =>
      intro vs w h₂
      cases h₂
      exact ⟨rfl, rfl⟩
    | more hs hrun ih =>
      intro vs w h₂
      cases h₂ with
      | more hs2 hrun2 =>
        have ht := Step_deterministic _ _ _ _ _ hs hs2
        subst ht
        obtain ⟨hts, hu⟩ := ih _ _ hrun2
        exact ⟨by rw [hts], hu⟩
  obtain ⟨hts, hu⟩ := main ts₂ u₂ h₂
  exact ⟨hts, hu, by rw [hts], by rw [hts]⟩

/-- Witness for C1 at a concrete input: a one-action run of the modelled
reactor, derived twice, gives equal transition lists and final states. -/
theorem replay_determinism_witness :
    [step modelReactor RAction.dispatch demoS0] = [step modelReactor RAction.dispatch demoS0] ∧
      step modelReactor RAction.dispatch demoS0 = step modelReactor RAction.dispatch demoS0 ∧
      [step modelReactor RAction.dispatch demoS0].map RState.handled =
        [step modelReactor RAction.dispatch demoS0].map RState.handled ∧
      [step modelReactor RAction.dispatch demoS0].map RState.compStates =
        [step modelReactor RAction.dispatch demoS0].map RState.compStates :=
  replay_determinism modelReactor demoS0 [RAction.dispatch] _ _ _ _
    (ExecRun.more (step_sound _ _ _) ExecRun.done)
    (ExecRun.more (step_sound _ _ _) ExecRun.done)

/-- C2: Component handler totality — for every component of the modelled
reactor, in every state, the entry point accepts every event payload and
returns a result (totality), and an unrecognized (irrelevant) input is
discarded as a no-op: the state is unchanged, zero effects are returned,
and no error escapes the component boundary (the entry point's type has no
error outcome). -/
theorem component_totality_no_op (C : Component) (hC : C ∈ modelComponents)
    (st e rng : Nat) :
    (∃ out, C.handle_event st e rng = out) ∧
    (C.relevant e = false → C.handle_event st e rng = (st, [], rng)) := by
  refine ⟨⟨C.handle_event st e rng, rfl⟩, fun hirr => ?_⟩
  simp only [modelComponents, List.mem_cons, List.mem_singleton, List.not_mem_nil, or_false] at hC
  rcases hC with rfl | rfl <;> simp_all [deploy_buffer, gossiper]

/-- Witness for C2 at a concrete input: payload 3 is unrecognized by the
deploy buffer and is discarded as a no-op. -/
theorem component_totality_no_op_witness :
    (∃ out, deploy_buffer.handle_event 0 3 7 = out) ∧
    (deploy_buffer.relevant 3 = false → deploy_buffer.handle_event 0 3 7 = (0, [], 7)) :=
  component_totality_no_op deploy_buffer (by simp [modelComponents]) 0 3 7

/-- C3: Non-blocking termination — for every component of the modelled
reactor, every state and every event payload, the entry point is a total
function: invoking it returns, and some resulting state exists (possibly
the same state).  The entry point is a pure function of its arguments, so
no blocking I/O or suspension can occur inside an invocation. -/
theorem handle_event_total (C : Component) (_hC : C ∈ modelComponents)
    (st e rng : Nat) :
    ∃ st2 effs rng2, C.handle_event st e rng = (st2, effs, rng2) :=
  ⟨(C.handle_event st e rng).1, (C.handle_event st e rng).2.1,
    (C.handle_event st e rng).2.2, rfl⟩

/-- Witness for C3 at a concrete input. -/
theorem handle_event_total_witness :
    ∃ st2 effs rng2, gossiper.handle_event 1 3 7 = (st2, effs, rng2) :=
  handle_event_total gossiper (by simp [modelComponents]) 1 3 7

/-- The routing declarations owning a given variant. -/
def routesOf (decls : List (Nat × Nat)) (v : Nat) : List (Nat × Nat) :=
  decls.filter (fun d => d.1 == v)

/-- Modelled from the spec: reactor construction builds the routing table
once, at construction time, and fails (returns `none`) unless every
registered global event variant is owned by exactly one declared component
and every declared owner actually exists among the components. -/
def buildReactor (components : List Component) (decls : List (Nat × Nat))
    (registered : List Nat) : Option Reactor :=
  if registered.all (fun v => (routesOf decls v).length == 1)
      && decls.all (fun d => d.2 < components.length) then
    some ⟨decls, components⟩
  else none

/-- If a decidable filter of a list is the singleton of an element, then the
first-match search finds exactly that element. -/
theorem find?_eq_of_filter_singleton {α : Type} {p : α → Bool} :
    ∀ {l : List α} {x : α}, l.filter p = [x] → l.find? p = some x := by
  intro l
  induction l with
  | nil => intro x h; simp at h
  | cons a t ih =>
    intro x h
    by_cases hp : p a
    · rw [List.filter_cons_of_pos hp] at h
      rw [List.find?_cons_of_pos _ hp]
      simp only [List.cons.injEq] at h
      rw [h.1]
    · rw [List.filter_cons_of_neg hp] at h
      rw [List.find?_cons_of_neg _ hp]
      exact ih h

/-- C4: Routing completeness — if reactor construction succeeded, then every
registered global event variant has exactly one owning component in the
routing table (an unroutable variant is a construction-time failure, since
`buildReactor` returns `none` for it), and dispatching a queued event of a
registered variant at runtime always reaches a handler: the event is
recorded as handled, never silently dropped at the routing layer. -/
theorem routing_complete (components : List Component) (decls : List (Nat × Nat))
    (registered : List Nat) (R : Reactor)
    (h : buildReactor components decls registered = some R)
    (v : Nat) (hv : v ∈ registered) :
    (∃! c, (v, c) ∈ R.table) ∧
    (∀ s e rest, s.queue = e :: rest → e.variant = v →
      (step R RAction.dispatch s).handled = s.handled ++ [e]) := by
  rw [buildReactor] at h
  by_cases hg : (registered.all (fun v => (routesOf decls v).length == 1)
      && decls.all (fun d => d.2 < components.length)) = true
  case neg => rw [if_neg hg] at h; exact absurd h (by simp)
  case pos =>
  rw [if_pos hg] at h
  obtain rfl := Option.some.inj h
  rw [Bool.and_eq_true] at hg
  have hlen : (routesOf decls v).length = 1 := by
    have := List.all_eq_true.mp hg.1 v hv
    simpa using this
  have hbound : ∀ d ∈ decls, d.2 < components.length := by
    intro d hd
    have := List.all_eq_true.mp hg.2 d hd
    simpa using this
  obtain ⟨x, hx⟩ := List.length_eq_one.mp hlen
  have hxmem : x ∈ routesOf decls v := by rw [hx]; exact List.mem_singleton_self x
  have hxd := List.mem_filter.mp hxmem
  have hx1 : x.1 = v := by simpa using hxd.2
  have hex : (v, x.2) ∈ decls := by
    have hxeta : (v, x.2) = x := by rw [← hx1]
    rw [hxeta]
    exact hxd.1
  have huniq : ∀ c, (v, c) ∈ decls → c = x.2 := by
    intro c hc
    have hm : (v, c) ∈ routesOf decls v := List.mem_filter.mpr ⟨hc, by simp⟩
    rw [hx] at hm
    have := List.mem_singleton.mp hm
    exact congrArg Prod.snd this
  refine ⟨⟨x.2, hex, huniq⟩, ?_⟩
  intro s e rest hq hvar
  have hfind : decls.find? (fun d => d.1 == e.variant) = some x := by
    rw [hvar]
    exact find?_eq_of_filter_singleton hx
  have hlook : lookupRoute decls e.variant = some x.2 := by
    simp [lookupRoute, hfind]
  have hlt : x.2 < components.length := hbound x hxd.1
  have hget : components[x.2]? = some components[x.2] := List.getElem?_eq_getElem hlt
  simp [step, hq, hlook, hget, dispatchState, scheduleEffects]

/-- Witness for C4 at a concrete input: the modelled reactor is constructed
successfully, and variant 0 is routed to exactly one component. -/
theorem routing_complete_witness :
    (∃! c, (0, c) ∈ modelReactor.table) ∧
    (∀ s e rest, s.queue = e :: rest → e.variant = 0 →
      (step modelReactor RAction.dispatch s).handled = s.handled ++ [e]) :=
  routing_complete modelComponents [(0, 0), (1, 1)] [0, 1] modelReactor rfl 0 (by simp)

/-- Aggregate event of the demonstration fan-out/join effect. -/
def aggEvent : GEvent := ⟨0, 4⟩

/-- A state holding one in-flight fan-out/join effect (handle id 7) built
from three sub-effects, none completed yet. -/
def joinS0 : RState := ⟨[0, 0], [], [⟨7, 3, [aggEvent]⟩], [], 42, 8⟩

/-- C5: Fan-out/join semantics — completing a sub-effect of an in-flight
compound effect while other sub-effects are still outstanding emits zero
events (queue and handled trace unchanged); only the completion of the last
outstanding sub-effect injects the aggregate events into the queue. -/
theorem fanout_join_semantics (R : Reactor) (s : RState) (i : Nat) (p : PEffect)
    (h : findPending i s.pending = some p) :
    (1 < p.remaining →
      (step R (RAction.complete i) s).queue = s.queue ∧
      (step R (RAction.complete i) s).handled = s.handled) ∧
    (p.remaining ≤ 1 →
      (step R (RAction.complete i) s).queue = s.queue ++ p.events) := by
  constructor
  · intro hr
    constructor <;> simp [step, h, Nat.not_le.mpr hr]
  · intro hr
    simp [step, h, hr]

/-- Witness for C5 at a concrete input: with a three-sub-effect join of
which one sub-effect has completed, completing a second sub-effect (two of
three complete) emits zero events. -/
theorem fanout_join_semantics_witness :
    (1 < 2 →
      (step modelReactor (RAction.complete 7)
          (step modelReactor (RAction.complete 7) joinS0)).queue
        = (step modelReactor (RAction.complete 7) joinS0).queue ∧
      (step modelReactor (RAction.complete 7)
          (step modelReactor (RAction.complete 7) joinS0)).handled
        = (step modelReactor (RAction.complete 7) joinS0).handled) ∧
    (2 ≤ 1 →
      (step modelReactor (RAction.complete 7)
          (step modelReactor (RAction.complete 7) joinS0)).queue
        = (step modelReactor (RAction.complete 7) joinS0).queue ++ [aggEvent]) :=
  fanout_join_semantics modelReactor
    (step modelReactor (RAction.complete 7) joinS0) 7 ⟨7, 2, [aggEvent]⟩ rfl

/-- Cancelling an effect removes every in-flight effect carrying its id, so
a later completion of that id finds nothing. -/
theorem findPending_dropPending (i : Nat) (l : List PEffect) :
    findPending i (dropPending i l) = none := by
  induction l with
  | nil => rfl
  | cons a t ih =>
    rw [dropPending, List.filter_cons]
    by_cases ha : (a.id != i) = true
    · rw [if_pos ha]
      rw [findPending, List.find?_cons_of_neg]
      · exact ih
      · simpa using ha
    · rw [if_neg ha]
      exact ih

/-- The event produced by race effect A (the winner, completing first). -/
def eventA : GEvent := ⟨0, 1⟩

/-- The event that race effect B (the loser) would produce. -/
def eventB : GEvent := ⟨1, 3⟩

/-- The race initial state: in-flight effect A (handle id 0) against
in-flight effect B (handle id 1), nothing queued or handled yet. -/
def raceS0 : RState := ⟨[0, 0], [], [⟨0, 1, [eventA]⟩, ⟨1, 1, [eventB]⟩], [], 42, 2⟩

/-- The race under the first-wins policy: A completes, B's handle is
dropped at that moment, and the injected event is dispatched. -/
def raceFinal : RState :=
  runActions modelReactor [RAction.complete 0, RAction.cancel 1, RAction.dispatch] raceS0

/-- C6: Cancellation silence — dropping an effect's handle before it
completes produces no event: the cancellation step changes neither the
queue nor the handled trace, and a subsequent completion of the cancelled
handle is a no-op.  In the race of effect A against effect B under the
first-wins policy (B cancelled when A completes), the resulting trace
contains A's event and never contains B's: B's event is in no handled
trace, no queue, and no surviving in-flight effect. -/
theorem cancellation_silence :
    (∀ (R : Reactor) (s : RState) (i : Nat),
      (step R (RAction.cancel i) s).queue = s.queue ∧
      (step R (RAction.cancel i) s).handled = s.handled ∧
      step R (RAction.complete i) (step R (RAction.cancel i) s)
        = step R (RAction.cancel i) s) ∧
    eventA ∈ raceFinal.handled ∧
    eventB ∉ raceFinal.handled ∧
    eventB ∉ raceFinal.queue ∧
    ∀ p ∈ raceFinal.pending, eventB ∉ p.events := by
  refine ⟨fun R s i => ⟨rfl, rfl, ?_⟩, by decide, by decide, by decide, by decide⟩
  show step R (RAction.complete i) { s with pending := dropPending i s.pending } = _
  simp [step, findPending_dropPending]

/-! The `keygen` subcommand (`client/src/keygen.rs`).  File contents are
modelled as strings, the output directory as an association list from file
name to contents. -/

/-- The lowercase hexadecimal digit character for a value below 16, as
produced by `hex::encode`. -/
def hexDigit (n : Nat) : Char :=
  if n < 10 then Char.ofNat (48 + n) else Char.ofNat (87 + n)

/-- The character list of the lowercase hex encoding of a byte string, two
digits per byte, as produced by `hex::encode`. -/
def hexEncodeChars (bs : List Nat) : List Char :=
  (bs.map (fun b => [hexDigit (b / 16), hexDigit (b % 16)])).flatten

/-- Hex encoding of a byte string (`hex::encode`). -/
def hexEncode (bs : List Nat) : String := String.mk (hexEncodeChars bs)

/-- The value of a lowercase hexadecimal digit character, if it is one. -/
def hexDigitVal (c : Char) : Option Nat :=
  if 48 ≤ c.toNat ∧ c.toNat ≤ 57 then some (c.toNat - 48)
  else if 97 ≤ c.toNat ∧ c.toNat ≤ 102 then some (c.toNat - 87)
  else none

/-- Hex decoding of a character list, two digits per byte. -/
def hexDecodeChars : List Char → Option (List Nat)
  | [] => some []
  | c1 :: c2 :: rest =>
    match hexDigitVal c1, hexDigitVal c2, hexDecodeChars rest with
    | some h, some l, some tl => some ((h * 16 + l) :: tl)
    | _, _, _ => none
  | _ => none

/-- Hex decoding of a string. -/
def hexDecode (s : String) : Option (List Nat) := hexDecodeChars s.data

/-- Decoding inverts the hex digit of any value below 16. -/
theorem hexDigitVal_hexDigit (n : Nat) (h : n < 16) :
    hexDigitVal (hexDigit n) = some n := by
  interval_cases n <;> decide

/-- Hex decoding inverts hex encoding on byte strings. -/
theorem hexDecode_hexEncode (bs : List Nat) (h : ∀ b ∈ bs, b < 256) :
    hexDecode (hexEncode bs) = some bs := by
  show hexDecodeChars (hexEncodeChars bs) = some bs
  induction bs with
  | nil => rfl
  | cons b t ih =>
    have hb : b < 256 := h b (by simp)
    have ht := ih (fun x hx => h x (by simp [hx]))
    have hchars : hexEncodeChars (b :: t)
        = hexDigit (b / 16) :: hexDigit (b % 16) :: hexEncodeChars t := by
      simp [hexEncodeChars]
    rw [hchars]
    simp only [hexDecodeChars, hexDigitVal_hexDigit (b / 16) (by omega),
      hexDigitVal_hexDigit (b % 16) (by omega), ht]
    have hb2 : b / 16 * 16 + b % 16 = b := by omega
    rw [hb2]

/-- The base64 alphabet character of a sextet, standard alphabet, as used
by `base64::encode`. -/
def b64Char (n : Nat) : Char :=
  if n < 26 then Char.ofNat (65 + n)
  else if n < 52 then Char.ofNat (97 + (n - 26))
  else if n < 62 then Char.ofNat (48 + (n - 52))
  else if n = 62 then Char.ofNat 43
  else Char.ofNat 47

/-- The sextet value of a standard-alphabet base64 character, if it is
one. -/
def b64Val (c : Char) : Option Nat :=
  if 65 ≤ c.toNat ∧ c.toNat ≤ 90 then some (c.toNat - 65)
  else if 97 ≤ c.toNat ∧ c.toNat ≤ 122 then some (c.toNat - 97 + 26)
  else if 48 ≤ c.toNat ∧ c.toNat ≤ 57 then some (c.toNat - 48 + 52)
  else if c.toNat = 43 then some 62
  else if c.toNat = 47 then some 63
  else none

/-- The character list of the padded standard base64 encoding of a byte
string, as produced by `base64::encode`. -/
def b64EncodeChunks : List Nat → List Char
  | a :: b :: c :: rest =>
      b64Char (a / 4) :: b64Char (a % 4 * 16 + b / 16) ::
        b64Char (b % 16 * 4 + c / 64) :: b64Char (c % 64) :: b64EncodeChunks rest
  | [a, b] => [b64Char (a / 4), b64Char (a % 4 * 16 + b / 16), b64Char (b % 16 * 4), '=']
  | [a] => [b64Char (a / 4), b64Char (a % 4 * 16), '=', '=']
  | [] => []

/-- Base64 encoding of a byte string (`base64::encode`). -/
def base64Encode (bs : List Nat) : String := String.mk (b64EncodeChunks bs)

/-- Base64 decoding of a character list in four-character chunks, with the
two padded final-chunk forms. -/
def b64DecodeChunks : List Char → Option (List Nat)
  | c1 :: c2 :: c3 :: c4 :: rest =>
    if c3 = '=' then
      if c4 = '=' then
        if rest = [] then
          match b64Val c1, b64Val c2 with
          | some a, some b => if b % 16 = 0 then some [a * 4 + b / 16] else none
          | _, _ => none
        else none
      else none
    else if c4 = '=' then
      if rest = [] then
        match b64Val c1, b64Val c2, b64Val c3 with
        | some a, some b, some c =>
          if c % 4 = 0 then some [a * 4 + b / 16, b % 16 * 16 + c / 4] else none
        | _, _, _ => none
      else none
    else
      match b64Val c1, b64Val c2, b64Val c3, b64Val c4, b64DecodeChunks rest with
      | some a, some b, some c, some d, some tl =>
        some ((a * 4 + b / 16) :: (b % 16 * 16 + c / 4) :: (c % 4 * 64 + d) :: tl)
      | _, _, _, _, _ => none
  | [] => some []
  | _ => none

/-- Base64 decoding of a string. -/
def base64Decode (s : String) : Option (List Nat) := b64DecodeChunks s.data

/-- Decoding inverts the base64 character of any sextet. -/
theorem b64Val_b64Char (n : Nat) (h : n < 64) : b64Val (b64Char n) = some n := by
  interval_cases n <;> decide

/-- No sextet encodes to the padding character. -/
theorem b64Char_ne_pad (n : Nat) (h : n < 64) : ¬(b64Char n = '=') := by
  interval_cases n <;> decide

/-- Base64 decoding inverts base64 encoding on byte strings, bounded-length
induction over the three-byte chunks. -/
theorem b64_roundtrip_aux (n : Nat) :
    ∀ bs : List Nat, bs.length ≤ n → (∀ b ∈ bs, b < 256) →
      b64DecodeChunks (b64EncodeChunks bs) = some bs := by
  induction n with
  | zero =>
    intro bs hlen _
    rw [List.length_eq_zero.mp (Nat.le_zero.mp hlen)]
    rfl
  | succ n ih =>
    intro bs hlen h
    match bs with
    | [] => rfl
    | [a] =>
      have ha : a < 256 := h a (by simp)
      rw [show b64EncodeChunks [a]
          = [b64Char (a / 4), b64Char (a % 4 * 16), '=', '='] from rfl]
      simp only [b64DecodeChunks, b64Val_b64Char (a / 4) (by omega),
        b64Val_b64Char (a % 4 * 16) (by omega), Nat.mul_mod_left, if_pos rfl,
        reduceIte]
      have h2 : a / 4 * 4 + a % 4 * 16 / 16 = a := by omega
      rw [h2]
    | [a, b] =>
      have ha : a < 256 := h a (by simp)
      have hb : b < 256 := h b (by simp)
      rw [show b64EncodeChunks [a, b]
          = [b64Char (a / 4), b64Char (a % 4 * 16 + b / 16),
             b64Char (b % 16 * 4), '='] from rfl]
      simp only [b64DecodeChunks, b64Val_b64Char (a / 4) (by omega),
        b64Val_b64Char (a % 4 * 16 + b / 16) (by omega),
        b64Val_b64Char (b % 16 * 4) (by omega), reduceIte,
        if_neg (b64Char_ne_pad (b % 16 * 4) (by omega)), if_pos rfl]
      have h1 : (b % 16 * 4) % 4 = 0 := Nat.mul_mod_left (b % 16) 4
      rw [if_pos h1]
      have h2 : a / 4 * 4 + (a % 4 * 16 + b / 16) / 16 = a := by omega
      have h3 : (a % 4 * 16 + b / 16) % 16 * 16 + b % 16 * 4 / 4 = b := by omega
      rw [h2, h3]
    | a :: b :: c :: rest =>
      have ha : a < 256 := h a (by simp)
      have hb : b < 256 := h b (by simp)
      have hc : c < 256 := h c (by simp)
      have hrest := ih rest (by simp at hlen ⊢; omega)
        (fun x hx => h x (by simp [hx]))
      rw [show b64EncodeChunks (a :: b :: c :: rest)
          = b64Char (a / 4) :: b64Char (a % 4 * 16 + b / 16) ::
              b64Char (b % 16 * 4 + c / 64) :: b64Char (c % 64) ::
              b64EncodeChunks rest from rfl]
      simp only [b64DecodeChunks,
        if_neg (b64Char_ne_pad (b % 16 * 4 + c / 64) (by omega)),
        if_neg (b64Char_ne_pad (c % 64) (by omega)),
        b64Val_b64Char (a / 4) (by omega),
        b64Val_b64Char (a % 4 * 16 + b / 16) (by omega),
        b64Val_b64Char (b % 16 * 4 + c / 64) (by omega),
        b64Val_b64Char (c % 64) (by omega), hrest]
      have h1 : a / 4 * 4 + (a % 4 * 16 + b / 16) / 16 = a := by omega
      have h2 : (a % 4 * 16 + b / 16) % 16 * 16 + (b % 16 * 4 + c / 64) / 4 = b := by
        omega
      have h3 : (b % 16 * 4 + c / 64) % 4 * 64 + c % 64 = c := by omega
      rw [h1, h2, h3]

/-- Base64 decoding inverts base64 encoding on byte strings. -/
theorem base64Decode_base64Encode (bs : List Nat) (h : ∀ b ∈ bs, b < 256) :
    base64Decode (base64Encode bs) = some bs :=
  b64_roundtrip_aux bs.length bs (Nat.le_refl _) h

/-- The modelled output directory: an association list from file name to
file contents, most recent write first. -/
abbrev FS : Type := List (String × String)

/-- Whether a file of the given name exists in the directory
(`file.exists()`). -/
def fsExists (dir : FS) (name : String) : Bool :=
  dir.any (fun p => p.1 == name)

/-- Write (or overwrite) a file in the directory (`fs::write`). -/
def fsWrite (dir : FS) (name contents : String) : FS :=
  (name, contents) :: dir.filter (fun p => p.1 != name)

/-- Read a file from the directory, if present. -/
def fsRead (dir : FS) (name : String) : Option String :=
  (dir.find? (fun p => p.1 == name)).map (fun p => p.2)

/-- File name constant `ACCOUNT_ID_BASE64` of `keygen.rs`. -/
def ACCOUNT_ID_BASE64 : String := "account_id_base64"

/-- File name constant `ACCOUNT_ID_HEX` of `keygen.rs`. -/
def ACCOUNT_ID_HEX : String := "account_id_hex"

/-- File name constant `PUBLIC_KEY_BASE64` of `keygen.rs`. -/
def PUBLIC_KEY_BASE64 : String := "public_key_base64"

/-- File name constant `PUBLIC_KEY_HEX` of `keygen.rs`. -/
def PUBLIC_KEY_HEX : String := "public_key_hex"

/-- File name constant `SECRET_KEY_PEM` of `keygen.rs`. -/
def SECRET_KEY_PEM : String := "secret_key.pem"

/-- File name constant `PUBLIC_KEY_PEM` of `keygen.rs`. -/
def PUBLIC_KEY_PEM : String := "public_key.pem"

/-- The `FILES` constant of `keygen.rs`: the six output files, in the order
the existence check walks them. -/
def FILES : List String :=
  [ACCOUNT_ID_BASE64, ACCOUNT_ID_HEX, PUBLIC_KEY_BASE64, PUBLIC_KEY_HEX,
   SECRET_KEY_PEM, PUBLIC_KEY_PEM]

/-- Algorithm name constant `ED25519` of `keygen.rs`. -/
def ED25519 : String := "Ed25519"

/-- Algorithm name constant `SECP256K1` of `keygen.rs`. -/
def SECP256K1 : String := "secp256k1"

/-- `write_file` of `keygen.rs`: joins the file name to the output
directory and writes the value there. -/
def write_file (filename : String) (dir : FS) (value : String) : FS :=
  fsWrite dir filename value

/-- The observable outcome of the `keygen` subcommand: an explicit process
exit with a status code, a panic, or a normal completion with the resulting
directory contents. -/
inductive KeygenOutcome where
  | exited (code : Nat) (dir : FS)
  | panicked (dir : FS)
  | wrote (dir : FS)
deriving DecidableEq

namespace Keygen

/-- `Keygen::run` of `client/src/keygen.rs`.  Without `--force`, if any of
the six output files already exists in the output directory the process
prints a message and exits with status 1, before any key is generated and
before anything is written.  Otherwise a key pair is generated for the
chosen algorithm (an unknown algorithm panics) and the six files are
written: the account hash in base64 and hex, the public key in base64 and
hex, and the two PEM files.  The generated key material (the public key
bytes, the account hash bytes and the two PEM renderings) is produced by
the crypto module, which is not among the provided sources, so it enters
the model as abstract input; the claims checked here do not depend on its
values. -/
def run (force : Bool) (algorithm : String) (publicKey accountId : List Nat)
    (secretKeyPem publicKeyPem : String) (dir : FS) : KeygenOutcome :=
  if !force && FILES.any (fun f => fsExists dir f) then
    KeygenOutcome.exited 1 dir
  else if algorithm == ED25519 || algorithm == SECP256K1 then
    KeygenOutcome.wrote
      (fsWrite
        (fsWrite
          (write_file PUBLIC_KEY_HEX
            (write_file PUBLIC_KEY_BASE64
              (write_file ACCOUNT_ID_HEX
                (write_file ACCOUNT_ID_BASE64 dir (base64Encode accountId))
                (hexEncode accountId))
              (base64Encode publicKey))
            (hexEncode publicKey))
          SECRET_KEY_PEM secretKeyPem)
        PUBLIC_KEY_PEM publicKeyPem)
  else KeygenOutcome.panicked dir

end Keygen

/-- C8: Keygen no-overwrite atomicity — without `--force`, if any of the
six output files already exists in the output directory, `Keygen::run`
exits with status 1 and the directory is returned exactly as it was: no
output file is written or modified, and no key is generated (the outcome
does not depend on the key material). -/
theorem keygen_no_overwrite (algorithm : String) (publicKey accountId : List Nat)
    (secretKeyPem publicKeyPem : String) (dir : FS)
    (hex : ∃ f ∈ FILES, fsExists dir f = true) :
    Keygen.run false algorithm publicKey accountId secretKeyPem publicKeyPem dir
      = KeygenOutcome.exited 1 dir := by
  obtain ⟨f, hf, hfe⟩ := hex
  have hany : FILES.any (fun f => fsExists dir f) = true :=
    List.any_eq_true.mpr ⟨f, hf, hfe⟩
  simp [Keygen.run, hany]

/-- Witness for C8 at a concrete input: with `account_id_hex` already
present, the run exits with status 1 and leaves the directory unchanged. -/
theorem keygen_no_overwrite_witness :
    Keygen.run false ED25519 [7, 200] [3] "sk" "pk" [(ACCOUNT_ID_HEX, "x")]
      = KeygenOutcome.exited 1 [(ACCOUNT_ID_HEX, "x")] :=
  keygen_no_overwrite ED25519 [7, 200] [3] "sk" "pk" [(ACCOUNT_ID_HEX, "x")]
    ⟨ACCOUNT_ID_HEX, by decide, by decide⟩

/-- A first-match search for one name is unaffected by filtering out
entries of a different name. -/
theorem find?_filter_ne (m n : String) (hne : m ≠ n) :
    ∀ dir : FS, (dir.filter (fun p => p.1 != n)).find? (fun p => p.1 == m)
      = dir.find? (fun p => p.1 == m) := by
  intro dir
  induction dir with
  | nil => rfl
  | cons a t ih =>
    by_cases ha : a.1 = m
    · have h2 : (a.1 != n) = true := by simpa [ha] using hne
      simp [List.filter_cons, List.find?_cons, ha, h2, hne]
    · by_cases hb : (a.1 != n) = true
      · simp [List.filter_cons, List.find?_cons, ha, hb, ih]
      · simp [List.filter_cons, List.find?_cons, ha, hb, ih]

/-- Reading the file just written yields exactly the written contents. -/
theorem fsRead_fsWrite_same (dir : FS) (n v : String) :
    fsRead (fsWrite dir n v) n = some v := by
  rw [fsRead, fsWrite, List.find?_cons_of_pos]
  · rfl
  · simp

/-- Writing one file leaves the readable contents of every other file
unchanged. -/
theorem fsRead_fsWrite_ne (dir : FS) (n m v : String) (hne : m ≠ n) :
    fsRead (fsWrite dir n v) m = fsRead dir m := by
  rw [fsRead, fsWrite, List.find?_cons_of_neg]
  · rw [find?_filter_ne m n hne dir]
    rfl
  · simpa using Ne.symm hne

/-- C9: Keygen encoding agreement — for every run of `Keygen::run` that
completes normally, base64-decoding the `account_id_base64` file and
hex-decoding the `account_id_hex` file both yield exactly the account hash
bytes, and base64-decoding the `public_key_base64` file and hex-decoding
the `public_key_hex` file both yield exactly the public key bytes. -/
theorem keygen_encoding_agreement (force : Bool) (algorithm : String)
    (publicKey accountId : List Nat) (secretKeyPem publicKeyPem : String)
    (dir out : FS)
    (hpk : ∀ b ∈ publicKey, b < 256) (haid : ∀ b ∈ accountId, b < 256)
    (hrun : Keygen.run force algorithm publicKey accountId secretKeyPem publicKeyPem dir
      = KeygenOutcome.wrote out) :
    base64Decode ((fsRead out ACCOUNT_ID_BASE64).getD "") = some accountId ∧
    hexDecode ((fsRead out ACCOUNT_ID_HEX).getD "") = some accountId ∧
    base64Decode ((fsRead out PUBLIC_KEY_BASE64).getD "") = some publicKey ∧
    hexDecode ((fsRead out PUBLIC_KEY_HEX).getD "") = some publicKey := by
  rw [Keygen.run] at hrun
  by_cases h1 : (!force && FILES.any (fun f => fsExists dir f)) = true
  · rw [if_pos h1] at hrun
    exact absurd hrun (by simp)
  · rw [if_neg h1] at hrun
    by_cases h2 : (algorithm == ED25519 || algorithm == SECP256K1) = true
    · rw [if_pos h2] at hrun
      cases hrun
      refine ⟨?_, ?_, ?_, ?_⟩
      · simp only [write_file]
        rw [fsRead_fsWrite_ne, fsRead_fsWrite_ne, fsRead_fsWrite_ne,
          fsRead_fsWrite_ne, fsRead_fsWrite_ne, fsRead_fsWrite_same]
        · simp only [Option.getD_some]
          exact base64Decode_base64Encode accountId haid
        all_goals decide
      · simp only [write_file]
        rw [fsRead_fsWrite_ne, fsRead_fsWrite_ne, fsRead_fsWrite_ne,
          fsRead_fsWrite_ne, fsRead_fsWrite_same]
        · simp only [Option.getD_some]
          exact hexDecode_hexEncode accountId haid
        all_goals decide
      · simp only [write_file]
        rw [fsRead_fsWrite_ne, fsRead_fsWrite_ne, fsRead_fsWrite_ne,
          fsRead_fsWrite_same]
        · simp only [Option.getD_some]
          exact base64Decode_base64Encode publicKey hpk
        all_goals decide
      · simp only [write_file]
        rw [fsRead_fsWrite_ne, fsRead_fsWrite_ne, fsRead_fsWrite_same]
        · simp only [Option.getD_some]
          exact hexDecode_hexEncode publicKey hpk
        all_goals decide
    · rw [if_neg h2] at hrun
      exact absurd hrun (by simp)

/-- The directory contents produced by the demonstration keygen run used
as the C9 witness. -/
def keygenDemoOut : FS :=
  fsWrite
    (fsWrite
      (write_file PUBLIC_KEY_HEX
        (write_file PUBLIC_KEY_BASE64
          (write_file ACCOUNT_ID_HEX
            (write_file ACCOUNT_ID_BASE64 [] (base64Encode [3]))
            (hexEncode [3]))
          (base64Encode [7, 200]))
        (hexEncode [7, 200]))
      SECRET_KEY_PEM "sk")
    PUBLIC_KEY_PEM "pk"

/-- Witness for C9 at a concrete input: a successful run into an empty
directory with public key bytes `[7, 200]` and account hash `[3]`. -/
theorem keygen_encoding_agreement_witness :
    base64Decode ((fsRead keygenDemoOut ACCOUNT_ID_BASE64).getD "") = some [3] ∧
    hexDecode ((fsRead keygenDemoOut ACCOUNT_ID_HEX).getD "") = some [3] ∧
    base64Decode ((fsRead keygenDemoOut PUBLIC_KEY_BASE64).getD "") = some [7, 200] ∧
    hexDecode ((fsRead keygenDemoOut PUBLIC_KEY_HEX).getD "") = some [7, 200] :=
  keygen_encoding_agreement true ED25519 [7, 200] [3] "sk" "pk" [] keygenDemoOut
    (by decide) (by decide) rfl

end CasperNode
